import Mathlib

/-!
# OpenAI client transport and upload purposes

A shallow embedding of `pkg/openai/domain/purpose/purpose.go` and
`pkg/openai/infrastructure/client/client.go`.

Go values are modelled as follows.

* `string` is `String`, `[]byte` is `List UInt8`, `int` is `Int`.
* `error` is `GoError`: a `fmt.Errorf` call is kept as its format string, its
  string arguments and (for `%w`) the wrapped error; `GoError.Error` renders it.
* A function returning `(T, error)` returns `Option T × Option GoError`
  (`nil` is `none`) where the pair itself matters, and `Except GoError T`
  otherwise.
* `map[string]string` is `StrMap`: its entries in the order `range` visits
  them, with pairwise different keys.
* The standard library and the operating system (`os.Open`, `http.NewRequest`
  with `url.Parse`, `http.Client.Do`, `json.Unmarshal`, `filepath.Base`,
  `unicode.ToLower`) and the converter `jsonl.ConvertToReader` are parameters,
  gathered in `World` and `Client`.
-/

deriving instance DecidableEq for Except

namespace Chatbot

/-! ## Errors -/

/-- Go `error` values. -/
inductive GoError where
  /-- An error produced outside this code (operating system, library). -/
  | external (text : String)
  /-- The call `fmt.Errorf(format, args...)` without a `%w` verb. -/
  | errorf (format : String) (args : List String)
  /-- The call `fmt.Errorf(format, args..., cause)` with a final `%w` verb. -/
  | wrapf (format : String) (args : List String) (cause : GoError)
deriving DecidableEq, Repr

/-- Rendering of a format string: `%s` prints the next argument as it is,
`%q` prints it through `quote` (`strconv.Quote`), `%w` prints the text of the
wrapped error. -/
def Sprintf (quote : String → String) : List Char → List String → String → List Char
  | '%' :: 's' :: rest, a :: as, w => a.data ++ Sprintf quote rest as w
  | '%' :: 'q' :: rest, a :: as, w => (quote a).data ++ Sprintf quote rest as w
  | '%' :: 'w' :: rest, as, w => w.data ++ Sprintf quote rest as w
  | c :: rest, as, w => c :: Sprintf quote rest as w
  | [], _, _ => []

/-- The method `Error()` of an error value. -/
def GoError.Error (quote : String → String) : GoError → String
  | .external text => text
  | .errorf format args => ⟨Sprintf quote format.data args ""⟩
  | .wrapf format args cause => ⟨Sprintf quote format.data args (cause.Error quote)⟩

/-! ## purpose.go -/

/-- The type `Purpose`. -/
structure Purpose where
  Value : String
  Description : String
deriving DecidableEq, Repr

/-- Modelled from the spec: the field `Code` that `client.go` reads from a
purpose is not declared by the type `Purpose` of `purpose.go`; the spec's
upload purpose is {code, description}, the code being the string that
`purpose.go` keeps in `Value`. -/
def Purpose.Code (p : Purpose) : String := p.Value

def FineTune : Purpose :=
  { Value := "fine-tune"
    Description := "Used to upload files for fine-tuning models." }

def FineTuneResults : Purpose :=
  { Value := "fine-tune-results"
    Description := "Used to upload results of fine-tuning jobs." }

def Assistants : Purpose :=
  { Value := "assistants"
    Description := "Used to upload files for the Assistants API." }

def AssistantsOutput : Purpose :=
  { Value := "assistants_output"
    Description := "Used to upload files generated by assistants." }

/-- The table `AllPurposes`, a map from code to purpose. -/
def AllPurposes : List (String × Purpose) :=
  [ (FineTune.Value, FineTune),
    (FineTuneResults.Value, FineTuneResults),
    (Assistants.Value, Assistants),
    (AssistantsOutput.Value, AssistantsOutput) ]

/-- The function `Resolve`. -/
def Resolve (code : String) : Except GoError Purpose :=
  if code = "" then
    .ok FineTune
  else
    match AllPurposes.lookup code with
    | some purpose => .ok purpose
    | none => .error (.errorf "invalid purpose value for OpenAI API request: %q" [code])

/-! ## Strings, readers, maps -/

/-- The type `[]byte`. -/
abbrev Bytes := List UInt8

/-- The function `strings.TrimRight`: `s` without its trailing runes that are
in `cutset`. -/
def TrimRight (s cutset : String) : String :=
  ⟨(s.data.reverse.dropWhile (fun ch => decide (ch ∈ cutset.data))).reverse⟩

/-- The function `strings.HasSuffix`. -/
def HasSuffix (s suffix : String) : Bool :=
  suffix.data.isSuffixOf s.data

/-- The function `strings.ToLower`, every rune mapped by `unicode.ToLower`,
which is the parameter `lower`. -/
def ToLower (lower : Char → Char) (s : String) : String :=
  ⟨s.data.map lower⟩

/-- An `io.Reader` read to its end: the bytes it delivers, and the error that
ends them when they do not end in `io.EOF`. -/
structure Reader where
  data : Bytes
  err : Option GoError
deriving DecidableEq, Repr

/-- An `io.ReadCloser` (an opened `*os.File`, a response body): what
reading it delivers and what its `Close()` returns. -/
structure ReadCloser where
  reader : Reader
  closeErr : Option GoError
deriving DecidableEq, Repr

/-- A `map[string]string`: the entries in the order a `range` loop visits
them; no key occurs twice. -/
structure StrMap where
  entries : List (String × String)
  nodup : (entries.map Prod.fst).Nodup

/-- The index expression `m[key]`: the zero value `""` for a missing key. -/
def StrMap.get (m : StrMap) (key : String) : String :=
  (m.entries.lookup key).getD ""

/-! ## mime/multipart -/

/-- One part of a multipart body: a file part (`CreateFormFile`) or a plain
form field (`WriteField`). -/
inductive Part where
  | file (fieldname filename : String) (content : Bytes)
  | field (fieldname value : String)
deriving DecidableEq, Repr

/-- The `name` parameter of a part's Content-Disposition. -/
def Part.name : Part → String
  | .file fieldname _ _ => fieldname
  | .field fieldname _ => fieldname

/-- The method `Write` of the `io.Writer` that `CreateFormFile` returns. -/
def Part.write (p : Part) (d : Bytes) : Part :=
  match p with
  | .file fieldname filename content => .file fieldname filename (content ++ d)
  | .field fieldname value => .field fieldname value

/-- What a `multipart.Writer` has written to its buffer: the parts, and
whether the closing boundary follows them. -/
structure Form where
  parts : List Part
  terminated : Bool
deriving DecidableEq, Repr

/-- The operations of a `multipart.Writer` that write to the underlying
`io.Writer`. -/
inductive WriterOp where
  | createFormFile
  | write
  | writeField (fieldname : String)
  | close
deriving DecidableEq, Repr

/-- A `multipart.Writer`: the finished parts, the part being written
(`lastpart`), whether `Close` wrote the closing boundary, the boundary, and the
error (if any) with which the underlying `io.Writer` answers each operation. -/
structure Writer where
  parts : List Part
  lastpart : Option Part
  closed : Bool
  boundary : String
  fault : WriterOp → Option GoError

/-- The function `multipart.NewWriter` on a fresh `bytes.Buffer`, whose
`Write` never returns an error; `boundary` is the random boundary it draws. -/
def NewWriter (boundary : String) : Writer :=
  { parts := [], lastpart := none, closed := false, boundary := boundary,
    fault := fun _ => none }

/-- The content of the buffer the writer writes to. -/
def Writer.buffer (w : Writer) : Form :=
  { parts := w.parts ++ w.lastpart.toList, terminated := w.closed }

/-- The method `CreateFormFile`. -/
def Writer.CreateFormFile (w : Writer) (fieldname filename : String) :
    Writer × Option GoError :=
  match w.fault .createFormFile with
  | some err => (w, some err)
  | none =>
    ({ w with parts := w.parts ++ w.lastpart.toList
              lastpart := some (.file fieldname filename []) }, none)

/-- The call `io.Copy(part, file)` for the part `CreateFormFile` returned. -/
def Writer.Copy (w : Writer) (file : Reader) : Writer × Option GoError :=
  match (if file.data = [] then none else w.fault .write) with
  | some err => (w, some err)
  | none =>
    ({ w with lastpart := w.lastpart.map (fun p => p.write file.data) }, file.err)

/-- The method `WriteField`. -/
def Writer.WriteField (w : Writer) (fieldname value : String) : Writer × Option GoError :=
  match w.fault (.writeField fieldname) with
  | some err => (w, some err)
  | none =>
    ({ w with parts := w.parts ++ w.lastpart.toList
              lastpart := some (.field fieldname value) }, none)

/-- The method `Close`. -/
def Writer.Close (w : Writer) : Writer × Option GoError :=
  match w.fault .close with
  | some err => ({ w with parts := w.parts ++ w.lastpart.toList, lastpart := none }, some err)
  | none =>
    ({ w with parts := w.parts ++ w.lastpart.toList, lastpart := none, closed := true }, none)

/-- The method `FormDataContentType`; the boundary `NewWriter` draws is
hexadecimal and is not quoted. -/
def Writer.FormDataContentType (w : Writer) : String :=
  "multipart/form-data; boundary=" ++ w.boundary

/-- The loop `for k, v := range fields` of `writeMultipart`, over the entries
still to visit. -/
def writeFields (w : Writer) : List (String × String) → Writer × Option GoError
  | [] => (w, none)
  | (k, v) :: rest =>
    if k ≠ "file" then
      match w.WriteField k v with
      | (w1, some err) => (w1, some (.wrapf "client: failed to write field %q: %w" [k] err))
      | (w1, none) => writeFields w1 rest
    else
      writeFields w rest

/-- The function `writeMultipart`: the writer after the call, and the
returned error. -/
def writeMultipart (w : Writer) (file : Reader) (filename : String) (fields : StrMap) :
    Writer × Option GoError :=
  match w.CreateFormFile "file" filename with
  | (w1, some err) => (w1, some (.wrapf "client: failed to create multipart file part: %w" [] err))
  | (w1, none) =>
    match w1.Copy file with
    | (w2, some err) => (w2, some (.wrapf "client: failed to copy file content: %w" [] err))
    | (w2, none) =>
      match writeFields w2 fields.entries with
      | (w3, some err) => (w3, some err)
      | (w3, none) =>
        match w3.Close with
        | (w4, some err) => (w4, some (.wrapf "client: failed to close multipart writer: %w" [] err))
        | (w4, none) => (w4, none)

/-! ## net/http -/

/-- The type `http.Header`; the two keys this client sets, `Authorization`
and `Content-Type`, are in canonical form as written. -/
abbrev Header := List (String × List String)

/-- The method `Header.Set`: the key gets the single value, replacing what
it had. -/
def Header.Set (h : Header) (key value : String) : Header :=
  (key, [value]) :: h.filter (fun kv => kv.1 ≠ key)

/-- The method `Header.Get`: the first value of the key, `""` without one. -/
def Header.Get (h : Header) (key : String) : String :=
  match h.lookup key with
  | some (v :: _) => v
  | _ => ""

/-- The body of a request, an `io.Reader`: `nil`, a reader of the caller, the
buffer `RequestJSON` encodes into, or the buffer the multipart writer writes
to. -/
inductive Body where
  | nil
  | reader (r : Reader)
  | jsonBuffer (data : Bytes)
  | multipartBuffer (form : Form)
deriving DecidableEq, Repr

/-- The part of `http.Request` this client touches. The field `URL` is the
parsed URL of the request, given by the text its method `String` renders. -/
structure Request where
  Method : String
  URL : String
  Header : Header
  Body : Body
deriving DecidableEq, Repr

/-- The part of `http.Response` this client reads. -/
structure Response where
  Status : String
  StatusCode : Int
  Body : ReadCloser
deriving DecidableEq, Repr

/-- A `context.Context`, as far as the transport sees it. -/
structure Context where
  done : Bool
deriving DecidableEq, Repr

/-- The type `http.Client`: the timeout, and what `Do` answers to a request
sent under a context. -/
structure HTTPClient where
  Timeout : Nat
  Do : Context → Request → Except GoError Response

/-- The variable `data` of `extractAPIError` is of the struct type with the
field `Error`, itself a struct with the field `Message`. -/
structure ErrorBody where
  Message : String
deriving DecidableEq, Repr

structure ErrorEnvelope where
  Error : ErrorBody
deriving DecidableEq, Repr

/-- A Go value passed as `any` to `RequestJSON`, given by what
`json.NewEncoder(buf).Encode` does with it: the bytes written to `buf`, or
the error. -/
structure Any where
  Encode : Except GoError Bytes

/-- The standard library, the operating system and the package `jsonl`, as
far as the client calls them. -/
structure World where
  /-- The function `os.Open`. -/
  Open : String → Except GoError ReadCloser
  /-- The function `jsonl.ConvertToReader`. -/
  ConvertToReader : String → Except GoError Reader
  /-- The function `filepath.Base`. -/
  Base : String → String
  /-- The function `unicode.ToLower`. -/
  lower : Char → Char
  /-- The random boundary `multipart.NewWriter` draws. -/
  boundary : String
  /-- The error, if any, with which `http.NewRequest` rejects a method and a
  URL string. -/
  requestErr : String → String → Option GoError
  /-- The text that the URL which `url.Parse` makes of a URL string renders
  with its method `String`; parsing may encode the string anew. -/
  renderURL : String → String
  /-- The call `json.Unmarshal(body, &data)` on the zero value of `data`:
  `data` after the call and the returned error. -/
  Unmarshal : Bytes → ErrorEnvelope × Option GoError

/-- The function `http.NewRequest`: the request holds the URL that
`url.Parse` makes of the string `url`, and an empty header. -/
def NewRequest (W : World) (method url : String) (body : Body) : Except GoError Request :=
  match W.requestErr method url with
  | some err => .error err
  | none =>
    .ok { Method := if method = "" then "GET" else method, URL := W.renderURL url,
          Header := [], Body := body }

/-! ## client.go -/

/-- The interface `ctrcfg.Config`, given by what its three getters return. -/
structure Config where
  BaseURL : String
  APIKey : String
  Timeout : Nat

def Config.GetBaseURL (cfg : Config) : String := cfg.BaseURL

def Config.GetAPIKey (cfg : Config) : String := cfg.APIKey

def Config.GetTimeout (cfg : Config) : Nat := cfg.Timeout

/-- The type `Client`. -/
structure Client where
  config : Config
  httpClient : HTTPClient

/-- The function `New`; `transport` is what the network answers. -/
def New (transport : Context → Request → Except GoError Response) (cfg : Config) : Client :=
  { config := cfg, httpClient := { Timeout := cfg.GetTimeout, Do := transport } }

/-- A call of a function with the results `([]byte, error)` at its exit:
the results as its `return` statement set them, and the local variable `err`
after the deferred calls have run. The results are unnamed, so that a deferred
closure assigning to `err` leaves `ret` as it is. -/
structure Frame where
  ret : Option Bytes × Option GoError
  err : Option GoError
deriving DecidableEq, Repr

/-- The method `extractAPIError`. -/
def Client.extractAPIError (_c : Client) (W : World) (body : Bytes) : String :=
  match W.Unmarshal body with
  | (data, err) =>
    if err = none ∧ data.Error.Message ≠ "" then
      data.Error.Message
    else
      "unknown OpenAI API error"

/-- The method `buildRequest`. -/
def Client.buildRequest (c : Client) (W : World) (method path : String) (body : Body) :
    Except GoError Request :=
  let url := TrimRight c.config.GetBaseURL "/" ++ path
  match NewRequest W method url body with
  | .error err => .error (.wrapf "client: failed to create HTTP request: %w" [] err)
  | .ok req =>
    .ok { req with Header := req.Header.Set "Authorization" ("Bearer " ++ c.config.GetAPIKey) }

/-- The method `doRequest`, as its frame at exit; the call returns `ret`. -/
def Client.doRequest (c : Client) (W : World) (ctx : Context) (req : Request) : Frame :=
  match c.httpClient.Do ctx req with
  | .error err =>
    { ret := (none, some (.wrapf "client: HTTP request failed: %w" [] err)), err := some err }
  | .ok resp =>
    -- the statements after the `defer`, up to the `return` that ends them
    let body : Frame :=
      match resp.Body.reader with
      | { data := _, err := some err } =>
        { ret := (none, some (.wrapf "client: failed to read response body: %w" [] err)),
          err := some err }
      | { data := respBody, err := none } =>
        if resp.StatusCode < 200 ∨ resp.StatusCode ≥ 300 then
          let msg := c.extractAPIError W respBody
          { ret := (none, some (.errorf "client: unexpected status %s (%s)" [resp.Status, msg])),
            err := none }
        else
          { ret := (some respBody, none), err := none }
    -- the deferred closure
    match resp.Body.closeErr with
    | some clerr =>
      if body.err = none then
        { body with err := some (.wrapf "client: failed to close response body: %w" [] clerr) }
      else
        body
    | none => body

/-- The method `RequestReader`. -/
def Client.RequestReader (c : Client) (W : World) (ctx : Context) (method path : String)
    (body : Body) : Option Bytes × Option GoError :=
  match c.buildRequest W method path body with
  | .error err => (none, some (.wrapf "client: failed to build request: %w" [] err))
  | .ok req => (c.doRequest W ctx req).ret

/-- The method `Request`. -/
def Client.Request (c : Client) (W : World) (ctx : Context) (method path : String) :
    Option Bytes × Option GoError :=
  c.RequestReader W ctx method path .nil

/-- The method `RequestJSON`. -/
def Client.RequestJSON (c : Client) (W : World) (ctx : Context) (method path : String)
    (body : Any) : Option Bytes × Option GoError :=
  match body.Encode with
  | .error err => (none, some (.wrapf "client: failed to encode json body: %w" [] err))
  | .ok buf =>
    match c.buildRequest W method path (.jsonBuffer buf) with
    | .error err => (none, some (.wrapf "client: failed to build request: %w" [] err))
    | .ok req =>
      let req := { req with Header := req.Header.Set "Content-Type" "application/json" }
      (c.doRequest W ctx req).ret

/-- The statements of `RequestMultipart` from the multipart buffer to the
final `return`, run with the chosen `reader`. -/
def Client.upload (c : Client) (W : World) (ctx : Context) (path filePath : String)
    (body : StrMap) (reader : Reader) : Frame :=
  let writer := NewWriter W.boundary
  match writeMultipart writer reader (W.Base filePath) body with
  | (_, some err) => { ret := (none, some err), err := none }
  | (writer, none) =>
    match c.buildRequest W "POST" path (.multipartBuffer writer.buffer) with
    | .error err =>
      { ret := (none, some (.wrapf "client: failed to build request: %w" [] err)), err := some err }
    | .ok req =>
      let req := { req with Header := req.Header.Set "Content-Type" writer.FormDataContentType }
      { ret := (c.doRequest W ctx req).ret, err := none }

/-- The method `RequestMultipart`, as its frame at exit; the call returns
`ret`. -/
def Client.RequestMultipart (c : Client) (W : World) (ctx : Context) (path : String)
    (body : StrMap) : Frame :=
  let filePath := body.get "file"
  match W.Open filePath with
  | .error err =>
    { ret := (none, some (.wrapf "client: failed to open file %q: %w" [filePath] err)),
      err := some err }
  | .ok file =>
    -- the statements after the `defer`, up to the `return` that ends them
    let run : Frame :=
      if HasSuffix (ToLower W.lower filePath) ".json" then
        let prp := body.get "purpose"
        if prp = FineTune.Code ∨ prp = FineTuneResults.Code then
          match W.ConvertToReader filePath with
          | .error err =>
            { ret := (none, some (.wrapf "client: failed to convert json to jsonl: %w" [] err)),
              err := some err }
          | .ok reader => c.upload W ctx path filePath body reader
        else
          c.upload W ctx path filePath body file.reader
      else
        c.upload W ctx path filePath body file.reader
    -- the deferred closure
    match file.closeErr with
    | some clerr =>
      if run.err = none then
        { run with err := some (.wrapf "client: failed to close file %q: %w" [filePath] clerr) }
      else
        run
    | none => run

/-! ## The spec's readings, to compare the code with -/

/-- The function `strings.TrimLeft`, which the code does not call: `s`
without its leading runes that are in `cutset`. -/
def TrimLeft (s cutset : String) : String :=
  ⟨s.data.dropWhile (fun ch => decide (ch ∈ cutset.data))⟩

/-- In the spec's words: the base URL and the path joined with exactly one
separating slash, whatever the trailing slashes of the one and the leading
slashes of the other. -/
def joinOneSlash (base path : String) : String :=
  TrimRight base "/" ++ "/" ++ TrimLeft path "/"

/-- The path begins with exactly one slash. -/
def oneLeadingSlash (path : String) : Bool :=
  match path.data with
  | '/' :: '/' :: _ => false
  | '/' :: _ => true
  | _ => false

/-- In the spec's words: the name ends in `.json`, compared
case-insensitively. -/
def endsInJSONFold (name : String) : Bool :=
  match name.data.reverse with
  | n :: o :: s :: j :: dot :: _ =>
    decide (dot = '.' ∧ (j = 'j' ∨ j = 'J') ∧ (s = 's' ∨ s = 'S') ∧ (o = 'o' ∨ o = 'O') ∧
      (n = 'n' ∨ n = 'N'))
  | _ => false

/-- What the client needs of `unicode.ToLower`: no rune but the letter itself
and its capital becomes `j`, `s`, `o` or `n`, and only the full stop becomes a
full stop. -/
def LowersJSON (lower : Char → Char) : Prop :=
  ∀ ch : Char,
    (lower ch = '.' ↔ ch = '.') ∧ (lower ch = 'j' ↔ ch = 'j' ∨ ch = 'J') ∧
    (lower ch = 's' ↔ ch = 's' ∨ ch = 'S') ∧ (lower ch = 'o' ↔ ch = 'o' ∨ ch = 'O') ∧
    (lower ch = 'n' ↔ ch = 'n' ∨ ch = 'N')

/-- The body parses as the error envelope with the message `m`. -/
def ParsesAs (W : World) (body : Bytes) (m : String) : Prop :=
  W.Unmarshal body = ({ Error := { Message := m } }, none)

instance (W : World) (body : Bytes) (m : String) : Decidable (ParsesAs W body m) := by
  unfold ParsesAs
  infer_instance

/-- The plain fields `writeMultipart` is to write for a map: one per entry
whose key is not `file`. -/
def fieldParts (fields : StrMap) : List Part :=
  (fields.entries.filter (fun kv => kv.1 ≠ "file")).map (fun kv => Part.field kv.1 kv.2)

/-! ## Concrete inputs -/

/-- The bytes of an ASCII string. -/
def asciiBytes (s : String) : Bytes :=
  s.data.map (fun ch => UInt8.ofNat ch.toNat)

def badKeyBody : Bytes :=
  asciiBytes "\x7b\"error\":\x7b\"message\":\"bad key\"\x7d\x7d"

def emptyObjectBody : Bytes := asciiBytes "\x7b\x7d"

def emptyMessageBody : Bytes :=
  asciiBytes "\x7b\"error\":\x7b\"message\":\"\"\x7d\x7d"

/-- A URL string with every space written `%20`, as the parsed URL renders
a space of the path. -/
def escapeSpaces : List Char → List Char
  | [] => []
  | ch :: rest => if ch = ' ' then '%' :: '2' :: '0' :: escapeSpaces rest else ch :: escapeSpaces rest

/-- A file that opens and reads, and whose `Close` succeeds or fails. -/
def sampleFile (closeErr : Option GoError) : ReadCloser :=
  { reader := { data := asciiBytes "[1,2]", err := none }, closeErr := closeErr }

/-- A world with four files, of which `broken.json` fails to close; the
decoder knows the three sample bodies and rejects every other one. -/
def sampleWorld : World :=
  { Open := fun name =>
      if name = "data.json" ∨ name = "data.JSON" ∨ name = "data.csv" then .ok (sampleFile none)
      else if name = "broken.json" then .ok (sampleFile (some (.external "close: input/output error")))
      else .error (.external "open: no such file or directory")
    ConvertToReader := fun _ => .ok { data := asciiBytes "1\n2\n", err := none }
    Base := fun name => name
    lower := Char.toLower
    boundary := "0123456789abcdef"
    requestErr := fun _ _ => none
    renderURL := fun url => ⟨escapeSpaces url.data⟩
    Unmarshal := fun body =>
      if body = badKeyBody then ({ Error := { Message := "bad key" } }, none)
      else if body = emptyObjectBody ∨ body = emptyMessageBody then
        ({ Error := { Message := "" } }, none)
      else ({ Error := { Message := "" } }, some (.external "invalid character")) }

def sampleConfig : Config :=
  { BaseURL := "https://api.openai.com/v1/", APIKey := "sk-test", Timeout := 30 }

/-- A response with the given status code and body, whose `Close` succeeds
or fails. -/
def sampleResponse (status : String) (code : Int) (body : Bytes)
    (closeErr : Option GoError) : Response :=
  { Status := status, StatusCode := code,
    Body := { reader := { data := body, err := none }, closeErr := closeErr } }

/-- A client whose every request is answered by `resp`. -/
def sampleClient (resp : Response) : Client :=
  New (fun _ _ => .ok resp) sampleConfig

def sampleContext : Context := { done := false }

def sampleRequest : Request :=
  { Method := "GET", URL := "https://api.openai.com/v1/files", Header := [], Body := .nil }

def sampleFields (name purpose : String) : StrMap :=
  { entries := [("file", name), ("purpose", purpose)]
    nodup := by simp }

def sampleFileOnly (name : String) : StrMap :=
  { entries := [("file", name)]
    nodup := by simp }

/-- The content of the first part of a multipart request body, when that
part is a file part. -/
def filePartContent (req : Request) : Bytes :=
  match req.Body with
  | .multipartBuffer form =>
    match form.parts with
    | .file _ _ content :: _ => content
    | _ => []
  | _ => []

/-- A client whose server answers every upload with status 200 and the
content of the file part it received. -/
def echoClient : Client :=
  New (fun _ req => .ok (sampleResponse "200 OK" 200 (filePartContent req) none)) sampleConfig

/-- The request `buildRequest` returns to `Request("GET", "/files")`. -/
def sampleBuilt : Request :=
  { Method := "GET", URL := "https://api.openai.com/v1/files",
    Header := [("Authorization", ["Bearer sk-test"])], Body := .nil }

/-- The request `buildRequest` returns to the upload of `data.json` for the
purpose `assistants`. -/
def sampleUploadBuilt : Request :=
  { Method := "POST", URL := "https://api.openai.com/v1/files",
    Header := [("Authorization", ["Bearer sk-test"])],
    Body := .multipartBuffer (Form.mk
      [Part.file "file" "data.json" (asciiBytes "[1,2]"), Part.field "purpose" "assistants"]
      true) }

/-- The writer after `writeMultipart` has written the file `data.json` and
the field `purpose`. -/
def sampleWritten : Writer :=
  { parts := [Part.file "file" "data.json" (asciiBytes "[1,2]"),
              Part.field "purpose" "fine-tune"]
    lastpart := none, closed := true, boundary := "0123456789abcdef", fault := fun _ => none }

/-! ## Upload purposes -/

theorem lookup_eq_none_of_not_mem {β : Type} (k : String) :
    ∀ l : List (String × β), k ∉ l.map Prod.fst → l.lookup k = none
  | [], _ => rfl
  | (a, b) :: l, h => by
    have h1 : k ≠ a := fun e => h (by simp [e])
    have h2 : k ∉ l.map Prod.fst := fun e =>
      h (by simp only [List.map_cons, List.mem_cons]; exact Or.inr e)
    have h3 : (k == a) = false := by simpa using h1
    simp only [List.lookup, h3]
    exact lookup_eq_none_of_not_mem k l h2

theorem mem_of_lookup_eq_some {β : Type} (k : String) (v : β) :
    ∀ l : List (String × β), l.lookup k = some v → (k, v) ∈ l
  | [], h => by simp [List.lookup] at h
  | (a, b) :: l, h => by
    by_cases e : k = a
    · subst e
      simp [List.lookup] at h
      simp [h]
    · have h3 : (k == a) = false := by simpa using e
      simp only [List.lookup, h3] at h
      exact List.mem_cons_of_mem _ (mem_of_lookup_eq_some k v l h)

/-- C7: `Resolve("")` succeeds with the default purpose `FineTune`, and for
every non-empty code that is not a key of `AllPurposes`, `Resolve` returns no
purpose and the invalid-purpose error naming the code. -/
theorem Resolve_empty_and_unknown :
    Resolve "" = .ok FineTune ∧
    ∀ code : String, code ≠ "" → code ∉ AllPurposes.map Prod.fst →
      Resolve code =
        .error (.errorf "invalid purpose value for OpenAI API request: %q" [code]) := by
  refine ⟨by decide, ?_⟩
  intro code hne hnot
  simp [Resolve, hne, lookup_eq_none_of_not_mem code AllPurposes hnot]

/-- The code `bogus` of the spec's example is rejected. -/
theorem Resolve_empty_and_unknown_witness :
    "bogus" ≠ "" ∧ "bogus" ∉ AllPurposes.map Prod.fst ∧
    Resolve "bogus" =
      .error (.errorf "invalid purpose value for OpenAI API request: %q" ["bogus"]) :=
  ⟨by decide, by decide, Resolve_empty_and_unknown.2 "bogus" (by decide) (by decide)⟩

/-- C9, as the claim states it, fails: the claim lists the code
`assistants-output`, which `Resolve` rejects. -/
theorem Resolve_hyphen_counterexample :
    "assistants-output" ≠ "" ∧
    "assistants-output" ∈ ["fine-tune", "fine-tune-results", "assistants", "assistants-output"] ∧
    Resolve "assistants-output" =
      .error (.errorf "invalid purpose value for OpenAI API request: %q" ["assistants-output"]) ∧
    Resolve "assistants_output" = .ok AssistantsOutput := by
  decide

/-- C9, amended: the known codes are `fine-tune`, `fine-tune-results`,
`assistants` and `assistants_output` (with an underscore); for every non-empty
code, `Resolve` succeeds exactly when the code is one of these four, and the
purpose it returns has the code as its value. -/
theorem Resolve_known_codes (code : String) (hne : code ≠ "") :
    ((∃ p, Resolve code = .ok p) ↔
      code ∈ ["fine-tune", "fine-tune-results", "assistants", "assistants_output"]) ∧
    ∀ p, Resolve code = .ok p → p.Value = code := by
  have hkeys : AllPurposes.map Prod.fst =
      ["fine-tune", "fine-tune-results", "assistants", "assistants_output"] := by decide
  have hval : ∀ kv ∈ AllPurposes, kv.2.Value = kv.1 := by decide
  constructor
  · constructor
    · rintro ⟨p, hp⟩
      by_contra hnot
      rw [← hkeys] at hnot
      simp [Resolve, hne, lookup_eq_none_of_not_mem code AllPurposes hnot] at hp
    · intro hmem
      simp only [List.mem_cons, List.mem_singleton, List.not_mem_nil, or_false] at hmem
      rcases hmem with h | h | h | h <;> subst h
      · exact ⟨FineTune, by decide⟩
      · exact ⟨FineTuneResults, by decide⟩
      · exact ⟨Assistants, by decide⟩
      · exact ⟨AssistantsOutput, by decide⟩
  · intro p hp
    simp only [Resolve, hne, if_false] at hp
    cases hl : AllPurposes.lookup code with
    | none => simp [hl] at hp
    | some q =>
      simp only [hl, Except.ok.injEq] at hp
      subst hp
      exact hval _ (mem_of_lookup_eq_some code q AllPurposes hl)

theorem Resolve_known_codes_witness :
    "assistants_output" ≠ "" ∧
    ((∃ p, Resolve "assistants_output" = .ok p) ↔
      "assistants_output" ∈
        ["fine-tune", "fine-tune-results", "assistants", "assistants_output"]) ∧
    ∀ p, Resolve "assistants_output" = .ok p → p.Value = "assistants_output" :=
  ⟨by decide, Resolve_known_codes "assistants_output" (by decide)⟩

/-! ## Response handling -/

/-- What `doRequest` returns once the transport has answered and the body
has been read: the status code decides, the outcome of `Close` does not. -/
theorem doRequest_ret_of_read (c : Client) (W : World) (ctx : Context) (req : Request)
    (resp : Response) (hdo : c.httpClient.Do ctx req = .ok resp)
    (hread : resp.Body.reader.err = none) :
    (c.doRequest W ctx req).ret =
      if resp.StatusCode < 200 ∨ resp.StatusCode ≥ 300 then
        (none, some (.errorf "client: unexpected status %s (%s)"
          [resp.Status, c.extractAPIError W resp.Body.reader.data]))
      else (some resp.Body.reader.data, none) := by
  obtain ⟨status, code, ⟨⟨data, rerr⟩, cerr⟩⟩ := resp
  simp only at hread
  subst hread
  simp only [Client.doRequest, hdo]
  cases cerr <;> by_cases hs : code < 200 ∨ code ≥ 300 <;> simp [hs]

/-- C1: for a response whose body is read, `doRequest` returns the body and
no error exactly when the status code `s` has `200 ≤ s < 300`; for every other
status code it returns no body and an error. -/
theorem doRequest_status_classification (c : Client) (W : World) (ctx : Context)
    (req : Request) (resp : Response) (hdo : c.httpClient.Do ctx req = .ok resp)
    (hread : resp.Body.reader.err = none) :
    ((c.doRequest W ctx req).ret = (some resp.Body.reader.data, none) ↔
      200 ≤ resp.StatusCode ∧ resp.StatusCode < 300) ∧
    (¬ (200 ≤ resp.StatusCode ∧ resp.StatusCode < 300) →
      (c.doRequest W ctx req).ret.1 = none ∧ (c.doRequest W ctx req).ret.2 ≠ none) := by
  rw [doRequest_ret_of_read c W ctx req resp hdo hread]
  by_cases hs : resp.StatusCode < 200 ∨ resp.StatusCode ≥ 300
  · have hn : ¬ (200 ≤ resp.StatusCode ∧ resp.StatusCode < 300) := by omega
    simp [hs, hn]
  · have hn : 200 ≤ resp.StatusCode ∧ resp.StatusCode < 300 := by omega
    simp [hs, hn]

/-- The four status codes of the spec: 199 and 300 fail, 200 and 299
succeed. -/
theorem doRequest_status_classification_witness :
    (((sampleClient (sampleResponse "199" 199 emptyObjectBody none)).doRequest sampleWorld
        sampleContext sampleRequest).ret ≠ (some emptyObjectBody, none)) ∧
    (((sampleClient (sampleResponse "200 OK" 200 emptyObjectBody none)).doRequest sampleWorld
        sampleContext sampleRequest).ret = (some emptyObjectBody, none)) ∧
    (((sampleClient (sampleResponse "299" 299 emptyObjectBody none)).doRequest sampleWorld
        sampleContext sampleRequest).ret = (some emptyObjectBody, none)) ∧
    (((sampleClient (sampleResponse "300 Multiple Choices" 300 emptyObjectBody none)).doRequest
        sampleWorld sampleContext sampleRequest).ret ≠ (some emptyObjectBody, none)) :=
  ⟨fun h => absurd ((doRequest_status_classification
      (sampleClient (sampleResponse "199" 199 emptyObjectBody none)) sampleWorld sampleContext
      sampleRequest _ rfl rfl).1.1 h) (by decide),
   (doRequest_status_classification
      (sampleClient (sampleResponse "200 OK" 200 emptyObjectBody none)) sampleWorld sampleContext
      sampleRequest _ rfl rfl).1.2 (by decide),
   (doRequest_status_classification
      (sampleClient (sampleResponse "299" 299 emptyObjectBody none)) sampleWorld sampleContext
      sampleRequest _ rfl rfl).1.2 (by decide),
   fun h => absurd ((doRequest_status_classification
      (sampleClient (sampleResponse "300 Multiple Choices" 300 emptyObjectBody none)) sampleWorld
      sampleContext sampleRequest _ rfl rfl).1.1 h) (by decide)⟩

/-! ## Error messages -/

/-- The text of the status error holds the message, between brackets. -/
theorem status_error_contains (quote : String → String) (status msg : String) :
    msg.data <:+:
      ((GoError.errorf "client: unexpected status %s (%s)" [status, msg]).Error quote).data := by
  refine ⟨"client: unexpected status ".data ++ status.data ++ " (".data, ")".data, ?_⟩
  simp [GoError.Error, Sprintf]

theorem extractAPIError_of_message (c : Client) (W : World) (body : Bytes) (m : String)
    (hparse : ParsesAs W body m) (hm : m ≠ "") : c.extractAPIError W body = m := by
  unfold ParsesAs at hparse
  simp [Client.extractAPIError, hparse, hm]

theorem extractAPIError_of_no_message (c : Client) (W : World) (body : Bytes)
    (hno : ¬ ∃ m : String, ParsesAs W body m ∧ m ≠ "") :
    c.extractAPIError W body = "unknown OpenAI API error" := by
  unfold Client.extractAPIError
  rcases hu : W.Unmarshal body with ⟨⟨⟨m⟩⟩, err⟩
  simp only
  split
  · rename_i h
    exact absurd ⟨m, by simp [ParsesAs, hu, h.1], h.2⟩ hno
  · rfl

/-- A body yields no message when decoding it fails or leaves the message
empty. -/
theorem no_message_of_unmarshal (W : World) (body : Bytes) (data : ErrorEnvelope)
    (err : Option GoError) (hu : W.Unmarshal body = (data, err))
    (h : err ≠ none ∨ data.Error.Message = "") :
    ¬ ∃ m : String, ParsesAs W body m ∧ m ≠ "" := by
  rintro ⟨m, hp, hm⟩
  unfold ParsesAs at hp
  rw [hu] at hp
  simp only [Prod.mk.injEq] at hp
  obtain ⟨hd, he⟩ := hp
  rcases h with h | h
  · exact h he
  · rw [hd] at h
    exact hm h

/-- The sample body `\x7b\x7d` yields no message. -/
theorem emptyObjectBody_no_message :
    ¬ ∃ m : String, ParsesAs sampleWorld emptyObjectBody m ∧ m ≠ "" :=
  no_message_of_unmarshal sampleWorld emptyObjectBody { Error := { Message := "" } } none
    (by decide) (Or.inr rfl)

/-- C2: there is one fallback string such that, for every body: if the body
parses as the envelope with a non-empty message `m`, `extractAPIError` returns
`m` and the error `doRequest` returns for a failure status has `m` in its text;
and if the body does not parse so (it is not JSON, or its message is empty),
`extractAPIError` returns the fallback string. -/
theorem extractAPIError_message_or_fallback :
    ∃ fallback : String, ∀ (c : Client) (W : World) (body : Bytes),
      (∀ m : String, ParsesAs W body m → m ≠ "" →
        c.extractAPIError W body = m ∧
        ∀ (ctx : Context) (req : Request) (resp : Response) (quote : String → String),
          c.httpClient.Do ctx req = .ok resp →
          resp.Body.reader = { data := body, err := none } →
          ¬ (200 ≤ resp.StatusCode ∧ resp.StatusCode < 300) →
          ∃ e : GoError, (c.doRequest W ctx req).ret = (none, some e) ∧
            m.data <:+: (e.Error quote).data) ∧
      ((¬ ∃ m : String, ParsesAs W body m ∧ m ≠ "") → c.extractAPIError W body = fallback) := by
  refine ⟨"unknown OpenAI API error",
    fun c W body => ⟨?_, extractAPIError_of_no_message c W body⟩⟩
  intro m hparse hm
  refine ⟨extractAPIError_of_message c W body m hparse hm, ?_⟩
  intro ctx req resp quote hdo hbody hs
  have hs2 : resp.StatusCode < 200 ∨ resp.StatusCode ≥ 300 := by omega
  refine ⟨_, ?_, status_error_contains quote resp.Status m⟩
  rw [doRequest_ret_of_read c W ctx req resp hdo (by rw [hbody])]
  simp [hs2, hbody, extractAPIError_of_message c W body m hparse hm]

/-- The spec's examples: the body with the message `bad key` yields
`bad key`; the body `\x7b\x7d`, a body that is not JSON and an envelope with an
empty message yield the same string. -/
theorem extractAPIError_message_or_fallback_witness :
    (sampleClient (sampleResponse "401 Unauthorized" 401 badKeyBody none)).extractAPIError
      sampleWorld badKeyBody = "bad key" ∧
    (sampleClient (sampleResponse "401 Unauthorized" 401 badKeyBody none)).extractAPIError
      sampleWorld emptyObjectBody =
    (sampleClient (sampleResponse "401 Unauthorized" 401 badKeyBody none)).extractAPIError
      sampleWorld (asciiBytes "not json") ∧
    (sampleClient (sampleResponse "401 Unauthorized" 401 badKeyBody none)).extractAPIError
      sampleWorld emptyMessageBody =
    (sampleClient (sampleResponse "401 Unauthorized" 401 badKeyBody none)).extractAPIError
      sampleWorld (asciiBytes "not json") := by
  obtain ⟨fallback, h⟩ := extractAPIError_message_or_fallback
  have h3 := (h (sampleClient (sampleResponse "401 Unauthorized" 401 badKeyBody none))
    sampleWorld (asciiBytes "not json")).2
    (no_message_of_unmarshal sampleWorld _ { Error := { Message := "" } }
      (some (.external "invalid character")) (by decide) (Or.inl (by decide)))
  refine ⟨((h _ sampleWorld badKeyBody).1 "bad key" (by decide) (by decide)).1, ?_, ?_⟩
  · rw [(h _ sampleWorld emptyObjectBody).2 emptyObjectBody_no_message, h3]
  · rw [(h _ sampleWorld emptyMessageBody).2
      (no_message_of_unmarshal sampleWorld _ { Error := { Message := "" } } none
        (by decide) (Or.inr rfl)), h3]

/-- C8, as the claim states it, fails: for the body `\x7b\x7d`, which yields
no message, `extractAPIError` does not return `unknown API error`. -/
theorem fallback_text_counterexample :
    (¬ ∃ m : String, ParsesAs sampleWorld emptyObjectBody m ∧ m ≠ "") ∧
    (sampleClient (sampleResponse "500" 500 emptyObjectBody none)).extractAPIError
      sampleWorld emptyObjectBody ≠ "unknown API error" :=
  ⟨emptyObjectBody_no_message, by decide⟩

/-- C8, amended: when a failure response body does not yield a non-empty
error message, `extractAPIError` returns exactly `unknown OpenAI API error`,
and that string is the message argument of the error `doRequest` returns. -/
theorem extractAPIError_fallback_text (c : Client) (W : World) (body : Bytes)
    (hno : ¬ ∃ m : String, ParsesAs W body m ∧ m ≠ "") :
    c.extractAPIError W body = "unknown OpenAI API error" ∧
    ∀ (ctx : Context) (req : Request) (resp : Response),
      c.httpClient.Do ctx req = .ok resp →
      resp.Body.reader = { data := body, err := none } →
      ¬ (200 ≤ resp.StatusCode ∧ resp.StatusCode < 300) →
      (c.doRequest W ctx req).ret =
        (none, some (.errorf "client: unexpected status %s (%s)"
          [resp.Status, "unknown OpenAI API error"])) := by
  refine ⟨extractAPIError_of_no_message c W body hno, ?_⟩
  intro ctx req resp hdo hbody hs
  have hs2 : resp.StatusCode < 200 ∨ resp.StatusCode ≥ 300 := by omega
  rw [doRequest_ret_of_read c W ctx req resp hdo (by rw [hbody])]
  simp [hs2, hbody, extractAPIError_of_no_message c W body hno]

theorem extractAPIError_fallback_text_witness :
    (sampleClient (sampleResponse "500" 500 emptyObjectBody none)).extractAPIError
      sampleWorld emptyObjectBody = "unknown OpenAI API error" ∧
    ((sampleClient (sampleResponse "500" 500 emptyObjectBody none)).doRequest sampleWorld
      sampleContext sampleRequest).ret =
      (none, some (.errorf "client: unexpected status %s (%s)"
        ["500", "unknown OpenAI API error"])) :=
  ⟨(extractAPIError_fallback_text _ sampleWorld emptyObjectBody emptyObjectBody_no_message).1,
   (extractAPIError_fallback_text _ sampleWorld emptyObjectBody emptyObjectBody_no_message).2
     sampleContext sampleRequest (sampleResponse "500" 500 emptyObjectBody none) rfl rfl
     (by decide)⟩

/-! ## Close failures -/

/-- C5, the code at the failing inputs: the response (the file) is read
with success and `Close` fails. The deferred closure stores the close failure
in the local variable `err`, and the call still returns the body and no
error. -/
theorem close_failure_not_returned :
    (sampleClient (sampleResponse "200 OK" 200 emptyObjectBody
        (some (.external "close: connection reset")))).doRequest
      sampleWorld sampleContext sampleRequest =
      { ret := (some emptyObjectBody, none)
        err := some (.wrapf "client: failed to close response body: %w" []
          (.external "close: connection reset")) } ∧
    (sampleClient (sampleResponse "200 OK" 200 emptyObjectBody none)).RequestMultipart
      sampleWorld sampleContext "/files" (sampleFields "broken.json" "assistants") =
      { ret := (some emptyObjectBody, none)
        err := some (.wrapf "client: failed to close file %q: %w" ["broken.json"]
          (.external "close: input/output error")) } := by
  constructor <;> decide

/-! ## The multipart encoder -/

theorem CreateFormFile_ok (w w1 : Writer) (fieldname filename : String)
    (h : w.CreateFormFile fieldname filename = (w1, none)) :
    w1 = { w with parts := w.parts ++ w.lastpart.toList
                  lastpart := some (.file fieldname filename []) } := by
  unfold Writer.CreateFormFile at h
  cases hf : w.fault .createFormFile with
  | some err => rw [hf] at h; simp at h
  | none => rw [hf] at h; simp only [Prod.mk.injEq, and_true] at h; exact h.symm

theorem Copy_ok (w w1 : Writer) (file : Reader) (h : w.Copy file = (w1, none)) :
    w1 = { w with lastpart := w.lastpart.map (fun p => p.write file.data) } ∧
    file.err = none := by
  unfold Writer.Copy at h
  split at h
  · simp at h
  · simp only [Prod.mk.injEq] at h
    exact ⟨h.1.symm, h.2⟩

theorem WriteField_ok (w w1 : Writer) (fieldname value : String)
    (h : w.WriteField fieldname value = (w1, none)) :
    w1 = { w with parts := w.parts ++ w.lastpart.toList
                  lastpart := some (.field fieldname value) } := by
  unfold Writer.WriteField at h
  cases hf : w.fault (.writeField fieldname) with
  | some err => rw [hf] at h; simp at h
  | none => rw [hf] at h; simp only [Prod.mk.injEq, and_true] at h; exact h.symm

theorem Close_ok (w w1 : Writer) (h : w.Close = (w1, none)) :
    w1 = { w with parts := w.parts ++ w.lastpart.toList, lastpart := none, closed := true } := by
  unfold Writer.Close at h
  cases hf : w.fault .close with
  | some err => rw [hf] at h; simp at h
  | none => rw [hf] at h; simp only [Prod.mk.injEq, and_true] at h; exact h.symm

/-- The loop over the fields, when it ends without an error, has appended one
plain field per entry not keyed `file`, in the order of the entries. -/
theorem writeFields_ok (l : List (String × String)) :
    ∀ (w w1 : Writer), writeFields w l = (w1, none) →
      w1.buffer.parts = w.buffer.parts ++
        (l.filter (fun kv => kv.1 ≠ "file")).map (fun kv => Part.field kv.1 kv.2) ∧
      w1.closed = w.closed ∧ w1.boundary = w.boundary := by
  induction l with
  | nil =>
    intro w w1 h
    simp only [writeFields, Prod.mk.injEq, and_true] at h
    subst h
    simp
  | cons kv l ih =>
    intro w w1 h
    obtain ⟨k, v⟩ := kv
    by_cases hk : k = "file"
    · subst hk
      simp only [writeFields, ne_eq, not_true_eq_false, if_false] at h
      have := ih w w1 h
      simpa using this
    · simp only [writeFields, ne_eq, hk, not_false_eq_true, if_true] at h
      rcases hwf : w.WriteField k v with ⟨w2, _ | err⟩
      · rw [hwf] at h
        simp only at h
        obtain ⟨h1, h2, h3⟩ := ih w2 w1 h
        have hw2 := WriteField_ok w w2 k v hwf
        subst hw2
        refine ⟨?_, h2, h3⟩
        rw [h1]
        simp [Writer.buffer, hk]
      · rw [hwf] at h
        simp at h

/-- Over a writer whose underlying `io.Writer` never fails, the loop over the
fields ends without an error. -/
theorem writeFields_of_no_fault (l : List (String × String)) :
    ∀ w : Writer, (∀ op, w.fault op = none) → (writeFields w l).2 = none ∧
      ∀ op, (writeFields w l).1.fault op = none := by
  induction l with
  | nil => intro w hw; exact ⟨rfl, hw⟩
  | cons kv l ih =>
    intro w hw
    obtain ⟨k, v⟩ := kv
    by_cases hk : k = "file"
    · subst hk
      simp only [writeFields, ne_eq, not_true_eq_false, if_false]
      exact ih w hw
    · simp only [writeFields, ne_eq, hk, not_false_eq_true, if_true, Writer.WriteField, hw]
      exact ih _ hw

/-- What a successful `writeMultipart` has written: after what the buffer
held, the file part with the bytes of the stream, then the plain fields, then
the closing boundary. -/
theorem writeMultipart_ok (w0 w : Writer) (file : Reader) (filename : String) (fields : StrMap)
    (h : writeMultipart w0 file filename fields = (w, none)) :
    w.buffer =
      { parts := w0.buffer.parts ++ Part.file "file" filename file.data :: fieldParts fields,
        terminated := true } ∧
    file.err = none ∧ w.boundary = w0.boundary := by
  unfold writeMultipart at h
  rcases h1 : w0.CreateFormFile "file" filename with ⟨w1, _ | err⟩
  swap
  · rw [h1] at h; simp at h
  rw [h1] at h
  simp only at h
  rcases h2 : w1.Copy file with ⟨w2, _ | err⟩
  swap
  · rw [h2] at h; simp at h
  rw [h2] at h
  simp only at h
  rcases h3 : writeFields w2 fields.entries with ⟨w3, _ | err⟩
  swap
  · rw [h3] at h; simp at h
  rw [h3] at h
  simp only at h
  rcases h4 : w3.Close with ⟨w4, _ | err⟩
  swap
  · rw [h4] at h; simp at h
  rw [h4] at h
  simp only [Prod.mk.injEq, and_true] at h
  subst h
  have e1 := CreateFormFile_ok _ _ _ _ h1
  obtain ⟨e2, hferr⟩ := Copy_ok _ _ _ h2
  obtain ⟨e3, -, e3b⟩ := writeFields_ok _ _ _ h3
  have e4 := Close_ok _ _ h4
  subst e4
  subst e2
  subst e1
  refine ⟨?_, hferr, e3b⟩
  simp only [Writer.buffer, Option.toList, List.append_nil, Option.map, Part.write,
    List.nil_append] at e3 ⊢
  simp [e3, fieldParts]

/-- Over a writer whose underlying `io.Writer` never fails, as the
`bytes.Buffer` of `RequestMultipart`, `writeMultipart` fails only when the
stream fails. -/
theorem writeMultipart_of_no_fault (w0 : Writer) (hw0 : ∀ op, w0.fault op = none)
    (file : Reader) (filename : String) (fields : StrMap) (hfile : file.err = none) :
    (writeMultipart w0 file filename fields).2 = none := by
  have key := writeFields_of_no_fault fields.entries
    { w0 with parts := w0.parts ++ w0.lastpart.toList
              lastpart := Option.map (fun p => p.write file.data)
                (some (Part.file "file" filename [])) }
    (fun op => hw0 op)
  unfold writeMultipart
  simp only [Writer.CreateFormFile, Writer.Copy, hfile, hw0, ite_self]
  rcases h3 : writeFields _ fields.entries with ⟨w3, _ | err⟩
  · rw [h3] at key
    have hc : w3.fault .close = none := key.2 .close
    simp only [Writer.Close, hc]
  · rw [h3] at key
    simp at key

theorem mem_fieldParts (fields : StrMap) (k v : String) :
    Part.field k v ∈ fieldParts fields ↔ (k, v) ∈ fields.entries ∧ k ≠ "file" := by
  unfold fieldParts
  simp only [List.mem_map, List.mem_filter, Prod.exists]
  constructor
  · rintro ⟨a, b, ⟨hmem, hne⟩, heq⟩
    simp only [Part.field.injEq] at heq
    obtain ⟨rfl, rfl⟩ := heq
    exact ⟨hmem, by simpa using hne⟩
  · rintro ⟨hmem, hne⟩
    exact ⟨k, v, ⟨hmem, by simpa using hne⟩, rfl⟩

theorem fieldParts_nodup (fields : StrMap) : (fieldParts fields).Nodup := by
  unfold fieldParts
  refine List.Nodup.map ?_ ((List.Nodup.of_map _ fields.nodup).filter _)
  rintro ⟨a, b⟩ ⟨c, d⟩ h
  simp only [Part.field.injEq] at h
  simp [h.1, h.2]

theorem fieldParts_no_file (fields : StrMap) :
    (fieldParts fields).filter (fun p => p.name = "file") = [] := by
  rw [List.filter_eq_nil_iff]
  intro p hp
  unfold fieldParts at hp
  simp only [List.mem_map, List.mem_filter] at hp
  obtain ⟨kv, ⟨_, hne⟩, rfl⟩ := hp
  simpa [Part.name] using hne

/-- C6: when `writeMultipart` succeeds on a fresh writer, the body is the
file part `file`, with the given filename and the bytes of the stream,
followed by the plain fields; the file part is the one part named `file`;
`Part.field k v` occurs once when `(k, v)` is an entry of the map with
`k` other than `file`, and does not occur otherwise; the body is terminated and
the stream was read to its end. -/
theorem writeMultipart_parts (w0 w : Writer) (file : Reader) (filename : String)
    (fields : StrMap) (hfresh : w0.buffer.parts = [])
    (h : writeMultipart w0 file filename fields = (w, none)) :
    w.buffer.parts = Part.file "file" filename file.data :: fieldParts fields ∧
    w.buffer.parts.filter (fun p => p.name = "file") = [Part.file "file" filename file.data] ∧
    (∀ k v : String, w.buffer.parts.count (Part.field k v) =
      if (k, v) ∈ fields.entries ∧ k ≠ "file" then 1 else 0) ∧
    w.buffer.terminated = true ∧ file.err = none := by
  obtain ⟨hb, hferr, -⟩ := writeMultipart_ok w0 w file filename fields h
  rw [hfresh, List.nil_append] at hb
  rw [hb]
  refine ⟨rfl, ?_, ?_, rfl, hferr⟩
  · rw [List.filter_cons_of_pos (by simp [Part.name]), fieldParts_no_file]
  · intro k v
    simp only [List.count_cons, beq_iff_eq, reduceCtorEq, if_false, Nat.add_zero]
    rw [List.count_eq_of_nodup (fieldParts_nodup fields)]
    simp only [mem_fieldParts]

/-- The map with the keys `file` and `purpose`: the entry keyed `file` is
not written as a field. -/
theorem writeMultipart_parts_witness :
    sampleWritten.buffer.parts =
      Part.file "file" "data.json" (asciiBytes "[1,2]") ::
        fieldParts (sampleFields "dir/data.json" "fine-tune") ∧
    sampleWritten.buffer.parts.filter (fun p => p.name = "file") =
      [Part.file "file" "data.json" (asciiBytes "[1,2]")] ∧
    (∀ k v : String, sampleWritten.buffer.parts.count (Part.field k v) =
      if (k, v) ∈ (sampleFields "dir/data.json" "fine-tune").entries ∧ k ≠ "file" then 1
      else 0) ∧
    sampleWritten.buffer.terminated = true ∧
    (Reader.mk (asciiBytes "[1,2]") none).err = none :=
  writeMultipart_parts (NewWriter "0123456789abcdef") sampleWritten
    { data := asciiBytes "[1,2]", err := none } "data.json"
    (sampleFields "dir/data.json" "fine-tune") rfl rfl

/-! ## The request builder -/

/-- The request `buildRequest` returns when it succeeds. -/
theorem buildRequest_ok (c : Client) (W : World) (method path : String) (body : Body)
    (req : Request) (h : c.buildRequest W method path body = .ok req) :
    req = { Method := if method = "" then "GET" else method,
            URL := W.renderURL (TrimRight c.config.GetBaseURL "/" ++ path),
            Header := [("Authorization", ["Bearer " ++ c.config.GetAPIKey])],
            Body := body } := by
  unfold Client.buildRequest NewRequest at h
  simp only at h
  cases hr : W.requestErr method (TrimRight c.config.GetBaseURL "/" ++ path) with
  | some err => simp [hr] at h
  | none =>
    simp only [hr, Except.ok.injEq] at h
    rw [← h]
    simp [Header.Set]

theorem dropWhile_length_le {α : Type} (p : α → Bool) (l : List α) :
    (l.dropWhile p).length ≤ l.length := by
  induction l with
  | nil => simp
  | cons a l ih =>
    simp only [List.dropWhile]
    split
    · simp; omega
    · simp

theorem slash_cons_trimLeft_iff (path : String) :
    path.data = '/' :: (TrimLeft path "/").data ↔ oneLeadingSlash path = true := by
  unfold TrimLeft oneLeadingSlash
  rcases path with ⟨l⟩
  have hmem : ∀ ch : Char, decide (ch ∈ "/".data) = decide (ch = '/') := by
    intro ch; simp
  simp only [hmem]
  match l with
  | [] => simp
  | [c] =>
    by_cases hc : c = '/'
    · subst hc; simp [List.dropWhile]
    · simp [List.dropWhile, hc]
  | c :: d :: r =>
    by_cases hc : c = '/'
    · subst hc
      by_cases hd : d = '/'
      · subst hd
        simp only [List.dropWhile, decide_True, List.cons.injEq, true_and]
        constructor
        · intro h
          have h1 := dropWhile_length_le (fun ch => decide (ch = '/')) r
          have h2 := congrArg List.length h
          simp at h2
          omega
        · intro h; simp at h
      · simp [List.dropWhile, hd]
    · simp [List.dropWhile, hc]

/-- The URL of the code is the spec's join exactly for the paths that begin
with exactly one slash. -/
theorem url_eq_join_iff (base path : String) :
    TrimRight base "/" ++ path = joinOneSlash base path ↔ oneLeadingSlash path = true := by
  rw [← slash_cons_trimLeft_iff]
  unfold joinOneSlash
  rw [String.ext_iff]
  simp [String.data_append]

/-- The base URL without its trailing slashes does not end in a slash. -/
theorem trimRight_no_trailing_slash (base : String) :
    (TrimRight base "/").data.getLast? ≠ some '/' := by
  unfold TrimRight
  simp only [List.getLast?_reverse]
  intro h
  have := List.head?_dropWhile_not (fun ch => decide (ch ∈ "/".data)) base.data.reverse
  rw [h] at this
  simp at this

/-- C4, as the claim states it, fails: for the path `files`, without a
leading slash, the URL string `buildRequest` constructs and the URL of the
request have no slash between base and path, and for the path `//files` they
have two; the spec's join has one in both cases. -/
theorem buildRequest_url_counterexample :
    TrimRight sampleConfig.GetBaseURL "/" ++ "files" = "https://api.openai.com/v1files" ∧
    (sampleClient (sampleResponse "200 OK" 200 [] none)).buildRequest sampleWorld
        "GET" "files" .nil =
      .ok { Method := "GET", URL := "https://api.openai.com/v1files",
            Header := [("Authorization", ["Bearer sk-test"])], Body := .nil } ∧
    joinOneSlash "https://api.openai.com/v1/" "files" = "https://api.openai.com/v1/files" ∧
    TrimRight sampleConfig.GetBaseURL "/" ++ "//files" = "https://api.openai.com/v1//files" ∧
    (sampleClient (sampleResponse "200 OK" 200 [] none)).buildRequest sampleWorld
        "GET" "//files" .nil =
      .ok { Method := "GET", URL := "https://api.openai.com/v1//files",
            Header := [("Authorization", ["Bearer sk-test"])], Body := .nil } ∧
    joinOneSlash "https://api.openai.com/v1/" "//files" = "https://api.openai.com/v1/files" := by
  decide

/-- C4, amended: the URL string `buildRequest` constructs and hands to
`http.NewRequest` is the base URL without its trailing slashes, which then
does not end in a slash, followed by the path; the URL of the request is what
`url.Parse` makes of that string; and the string is the base and the path
joined with exactly one separating slash, whatever the trailing slashes of
the base, exactly when the path begins with exactly one slash. -/
theorem buildRequest_url (c : Client) (W : World) (method path : String) (body : Body) :
    c.buildRequest W method path body =
      (match NewRequest W method (TrimRight c.config.GetBaseURL "/" ++ path) body with
        | .error err => .error (.wrapf "client: failed to create HTTP request: %w" [] err)
        | .ok req =>
          .ok { req with
                Header := req.Header.Set "Authorization" ("Bearer " ++ c.config.GetAPIKey) }) ∧
    (∀ req : Request, c.buildRequest W method path body = .ok req →
      W.requestErr method (TrimRight c.config.GetBaseURL "/" ++ path) = none ∧
      req.URL = W.renderURL (TrimRight c.config.GetBaseURL "/" ++ path)) ∧
    (TrimRight c.config.GetBaseURL "/").data.getLast? ≠ some '/' ∧
    (TrimRight c.config.GetBaseURL "/" ++ path = joinOneSlash c.config.GetBaseURL path ↔
      oneLeadingSlash path = true) := by
  refine ⟨rfl, ?_, trimRight_no_trailing_slash _, url_eq_join_iff _ _⟩
  intro req h
  refine ⟨?_, by rw [buildRequest_ok c W method path body req h]⟩
  cases hr : W.requestErr method (TrimRight c.config.GetBaseURL "/" ++ path) with
  | none => rfl
  | some err =>
    unfold Client.buildRequest NewRequest at h
    simp [hr] at h

/-- The path `/files` is joined to the base with one slash; for the path
`/fi les`, which begins with one slash too, the string handed to
`http.NewRequest` is the join, and the URL of the request writes the space
`%20`. -/
theorem buildRequest_url_witness :
    TrimRight sampleConfig.GetBaseURL "/" ++ "/files" =
      joinOneSlash sampleConfig.GetBaseURL "/files" ∧
    joinOneSlash sampleConfig.GetBaseURL "/files" = "https://api.openai.com/v1/files" ∧
    TrimRight sampleConfig.GetBaseURL "/" ++ "/fi les" =
      joinOneSlash sampleConfig.GetBaseURL "/fi les" ∧
    (Request.mk "GET" "https://api.openai.com/v1/fi%20les"
      [("Authorization", ["Bearer sk-test"])] .nil).URL =
      sampleWorld.renderURL (TrimRight sampleConfig.GetBaseURL "/" ++ "/fi les") ∧
    ¬ (TrimRight sampleConfig.GetBaseURL "/" ++ "files" =
      joinOneSlash sampleConfig.GetBaseURL "files") :=
  ⟨(buildRequest_url (sampleClient (sampleResponse "200 OK" 200 [] none)) sampleWorld
      "GET" "/files" .nil).2.2.2.2 (by decide),
   by decide,
   (buildRequest_url (sampleClient (sampleResponse "200 OK" 200 [] none)) sampleWorld
      "GET" "/fi les" .nil).2.2.2.2 (by decide),
   ((buildRequest_url (sampleClient (sampleResponse "200 OK" 200 [] none)) sampleWorld
      "GET" "/fi les" .nil).2.1 _ (by decide)).2,
   fun h => absurd ((buildRequest_url (sampleClient (sampleResponse "200 OK" 200 [] none))
      sampleWorld "GET" "files" .nil).2.2.2.1 h) (by decide)⟩

/-! ## The upload -/

/-- The results of `RequestMultipart` once the file is open: those of the
upload with the chosen reader, whatever `Close` returns. -/
theorem RequestMultipart_ret_of_open (c : Client) (W : World) (ctx : Context) (path : String)
    (body : StrMap) (file : ReadCloser) (hopen : W.Open (body.get "file") = .ok file) :
    (c.RequestMultipart W ctx path body).ret =
      if HasSuffix (ToLower W.lower (body.get "file")) ".json" = true ∧
          (body.get "purpose" = FineTune.Code ∨ body.get "purpose" = FineTuneResults.Code) then
        match W.ConvertToReader (body.get "file") with
        | .error err =>
          (none, some (.wrapf "client: failed to convert json to jsonl: %w" [] err))
        | .ok reader => (c.upload W ctx path (body.get "file") body reader).ret
      else (c.upload W ctx path (body.get "file") body file.reader).ret := by
  unfold Client.RequestMultipart
  simp only [hopen]
  by_cases h1 : HasSuffix (ToLower W.lower (body.get "file")) ".json" = true
  · by_cases h2 : body.get "purpose" = FineTune.Code ∨ body.get "purpose" = FineTuneResults.Code
    · simp only [h1, h2, and_self, if_true]
      cases W.ConvertToReader (body.get "file") with
      | error err => cases file.closeErr <;> rfl
      | ok reader =>
        cases file.closeErr with
        | none => rfl
        | some clerr =>
          simp only
          split <;> rfl
    · simp only [h1, h2, and_false, if_true, if_false]
      cases file.closeErr <;> simp
      split <;> rfl
  · simp only [h1, false_and, if_false]
    cases file.closeErr <;> simp
    split <;> rfl

/-- What the upload does with a stream that is read to its end. -/
theorem upload_of_stream (c : Client) (W : World) (ctx : Context) (path filePath : String)
    (body : StrMap) (reader : Reader) (req : Request) (hreader : reader.err = none)
    (hreq : c.buildRequest W "POST" path
      (.multipartBuffer { parts := Part.file "file" (W.Base filePath) reader.data :: fieldParts body,
                          terminated := true }) = .ok req) :
    c.upload W ctx path filePath body reader =
      { ret := (c.doRequest W ctx
          { req with
            Header := req.Header.Set "Content-Type" ("multipart/form-data; boundary=" ++ W.boundary) }).ret
        err := none } := by
  have hnf := writeMultipart_of_no_fault (NewWriter W.boundary) (fun _ => rfl) reader
    (W.Base filePath) body hreader
  rcases hw : writeMultipart (NewWriter W.boundary) reader (W.Base filePath) body with
    ⟨w, _ | err⟩
  · obtain ⟨hb, -, hbd⟩ := writeMultipart_ok _ _ _ _ _ hw
    have hb2 : w.buffer =
        Form.mk (Part.file "file" (W.Base filePath) reader.data :: fieldParts body) true := by
      rw [hb]; rfl
    unfold Client.upload
    simp only [hw, hb2, hreq, Writer.FormDataContentType, hbd]
    rfl
  · rw [hw] at hnf
    simp at hnf

theorem hasSuffix_json_iff (lower : Char → Char) (hl : LowersJSON lower) (name : String) :
    HasSuffix (ToLower lower name) ".json" = endsInJSONFold name := by
  unfold HasSuffix ToLower endsInJSONFold List.isSuffixOf
  have hrev : (".json" : String).data.reverse = ['n', 'o', 's', 'j', '.'] := by decide
  simp only [hrev, ← List.map_reverse]
  generalize name.data.reverse = l
  match l with
  | [] => rfl
  | [_] => simp [List.isPrefixOf]
  | [_, _] => simp [List.isPrefixOf]
  | [_, _, _] => simp [List.isPrefixOf]
  | [_, _, _, _] => simp [List.isPrefixOf]
  | n :: o :: s :: j :: dot :: r =>
    have h1 : ('.' == lower dot) = true ↔ dot = '.' := by
      rw [beq_iff_eq, eq_comm]; exact (hl dot).1
    have h2 : ('j' == lower j) = true ↔ j = 'j' ∨ j = 'J' := by
      rw [beq_iff_eq, eq_comm]; exact (hl j).2.1
    have h3 : ('s' == lower s) = true ↔ s = 's' ∨ s = 'S' := by
      rw [beq_iff_eq, eq_comm]; exact (hl s).2.2.1
    have h4 : ('o' == lower o) = true ↔ o = 'o' ∨ o = 'O' := by
      rw [beq_iff_eq, eq_comm]; exact (hl o).2.2.2.1
    have h5 : ('n' == lower n) = true ↔ n = 'n' ∨ n = 'N' := by
      rw [beq_iff_eq, eq_comm]; exact (hl n).2.2.2.2
    rw [Bool.eq_iff_iff]
    simp only [List.map_cons, List.isPrefixOf, Bool.and_eq_true, List.isPrefixOf_nil_left,
      Bool.and_true, decide_eq_true_eq, h1, h2, h3, h4, h5]
    constructor <;> rintro ⟨a, b, c, d, e⟩ <;> exact ⟨e, d, c, b, a⟩

theorem toNat_ofNat_of_lt (n : Nat) (h : n < 55296) : (Char.ofNat n).toNat = n := by
  unfold Char.ofNat
  rw [dif_pos (Or.inl h)]
  simp [Char.toNat, Char.ofNatAux, UInt32.toNat]

theorem char_eq_of_toNat_eq (a b : Char) (h : a.toNat = b.toNat) : a = b := by
  rw [← Char.ofNat_toNat a, ← Char.ofNat_toNat b, h]

theorem toLower_eq_letter_iff (ch t : Char) (hlo : 97 ≤ t.toNat) (hhi : t.toNat ≤ 122) :
    Char.toLower ch = t ↔ ch = t ∨ ch = Char.ofNat (t.toNat - 32) := by
  have hT : (Char.ofNat (t.toNat - 32)).toNat = t.toNat - 32 :=
    toNat_ofNat_of_lt _ (by omega)
  unfold Char.toLower
  simp only
  split
  · rename_i h
    have hL : (Char.ofNat (ch.toNat + 32)).toNat = ch.toNat + 32 :=
      toNat_ofNat_of_lt _ (by omega)
    constructor
    · intro e
      right
      apply char_eq_of_toNat_eq
      rw [hT, ← e, hL]
      omega
    · rintro (e | e)
      · subst e; omega
      · apply char_eq_of_toNat_eq
        rw [hL, e, hT]
        omega
  · rename_i h
    constructor
    · intro e; exact Or.inl e
    · rintro (e | e)
      · exact e
      · exfalso
        apply h
        rw [e, hT]
        omega

theorem toLower_eq_dot_iff (ch : Char) : Char.toLower ch = '.' ↔ ch = '.' := by
  unfold Char.toLower
  simp only
  split
  · rename_i h
    have hL : (Char.ofNat (ch.toNat + 32)).toNat = ch.toNat + 32 :=
      toNat_ofNat_of_lt _ (by omega)
    have hd : ('.' : Char).toNat = 46 := by decide
    constructor
    · intro e
      rw [e, hd] at hL
      omega
    · intro e
      rw [e, hd] at h
      omega
  · exact Iff.rfl

theorem lowersJSON_toLower : LowersJSON Char.toLower := by
  intro ch
  exact ⟨toLower_eq_dot_iff ch,
    toLower_eq_letter_iff ch 'j' (by decide) (by decide),
    toLower_eq_letter_iff ch 's' (by decide) (by decide),
    toLower_eq_letter_iff ch 'o' (by decide) (by decide),
    toLower_eq_letter_iff ch 'n' (by decide) (by decide)⟩

/-- Setting a header leaves the value of every other header as it was. -/
theorem header_get_set_other (h : Header) (key other value : String) (hne : key ≠ other) :
    (h.Set other value).Get key = h.Get key := by
  have h1 : (key == other) = false := by simpa using hne
  have h2 : ∀ l : Header, (l.filter (fun kv => kv.1 ≠ other)).lookup key = l.lookup key := by
    intro l
    induction l with
    | nil => rfl
    | cons kv l ih =>
      obtain ⟨k, v⟩ := kv
      by_cases hk : k = other
      · have h3 : (key == k) = false := by rw [hk]; exact h1
        rw [List.filter_cons_of_neg (by simp [hk])]
        simp only [List.lookup, h3]
        exact ih
      · rw [List.filter_cons_of_pos (by simp [hk])]
        by_cases hkk : key = k
        · subst hkk
          simp [List.lookup]
        · have h3 : (key == k) = false := by simpa using hkk
          simp only [List.lookup, h3]
          exact ih
  unfold Header.Set Header.Get
  simp only [List.lookup, h1]
  rw [h2]

/-- C10: the request `buildRequest` returns has the Authorization header
`Bearer ` followed by the API key, and setting Content-Type leaves it so;
`RequestReader` and `Request` hand this request to `doRequest`, `RequestJSON`
and `RequestMultipart` hand it over with Content-Type set. -/
theorem buildRequest_authorization (c : Client) (W : World) (ctx : Context)
    (method path : String) (body : Body) (req : Request)
    (h : c.buildRequest W method path body = .ok req) :
    req.Header.Get "Authorization" = "Bearer " ++ c.config.GetAPIKey ∧
    (∀ contentType : String,
      (req.Header.Set "Content-Type" contentType).Get "Authorization" =
        "Bearer " ++ c.config.GetAPIKey) ∧
    c.RequestReader W ctx method path body = (c.doRequest W ctx req).ret ∧
    (body = .nil → c.Request W ctx method path = (c.doRequest W ctx req).ret) ∧
    (∀ (v : Any) (buf : Bytes), v.Encode = .ok buf → body = .jsonBuffer buf →
      c.RequestJSON W ctx method path v =
        (c.doRequest W ctx
          { req with Header := req.Header.Set "Content-Type" "application/json" }).ret) ∧
    (∀ (fields : StrMap) (file : ReadCloser) (reader : Reader),
      method = "POST" → W.Open (fields.get "file") = .ok file →
      (if HasSuffix (ToLower W.lower (fields.get "file")) ".json" = true ∧
          (fields.get "purpose" = FineTune.Code ∨ fields.get "purpose" = FineTuneResults.Code)
        then W.ConvertToReader (fields.get "file") = .ok reader else reader = file.reader) →
      reader.err = none →
      body = .multipartBuffer (Form.mk
        (Part.file "file" (W.Base (fields.get "file")) reader.data :: fieldParts fields) true) →
      (c.RequestMultipart W ctx path fields).ret =
        (c.doRequest W ctx
          { req with
            Header := req.Header.Set "Content-Type"
              ("multipart/form-data; boundary=" ++ W.boundary) }).ret) := by
  have hreq := buildRequest_ok c W method path body req h
  have hget : req.Header.Get "Authorization" = "Bearer " ++ c.config.GetAPIKey := by
    rw [hreq]
    simp [Header.Get, List.lookup]
  refine ⟨hget, ?_, ?_, ?_, ?_, ?_⟩
  · intro contentType
    rw [header_get_set_other _ _ _ _ (by decide)]
    exact hget
  · simp only [Client.RequestReader, h]
  · intro hb
    subst hb
    simp only [Client.Request, Client.RequestReader, h]
  · intro v buf hv hb
    subst hb
    simp only [Client.RequestJSON, hv, h]
  · intro fields file reader hm hopen hsel hreader hb
    subst hm
    subst hb
    rw [RequestMultipart_ret_of_open c W ctx path fields file hopen]
    split
    · rename_i hc
      rw [if_pos hc] at hsel
      rw [hsel]
      simp only
      rw [upload_of_stream c W ctx path _ fields reader req hreader h]
    · rename_i hc
      rw [if_neg hc] at hsel
      subst hsel
      rw [upload_of_stream c W ctx path _ fields _ req hreader h]

/-- C3: once the file is open, with `unicode.ToLower` as `LowersJSON` says:
when the file name ends in `.json`, case-insensitively, and the purpose is
`fine-tune` or `fine-tune-results`, `RequestMultipart` uploads what
`jsonl.ConvertToReader` delivers, or returns its error; in every other case it
uploads the bytes of the opened file; and the upload of a stream sends a
request whose file part holds the bytes of the stream. -/
theorem RequestMultipart_conversion (c : Client) (W : World) (ctx : Context) (path : String)
    (body : StrMap) (file : ReadCloser) (hlower : LowersJSON W.lower)
    (hopen : W.Open (body.get "file") = .ok file) :
    ((endsInJSONFold (body.get "file") = true ∧
        (body.get "purpose" = "fine-tune" ∨ body.get "purpose" = "fine-tune-results")) →
      (c.RequestMultipart W ctx path body).ret =
        match W.ConvertToReader (body.get "file") with
        | .error err =>
          (none, some (.wrapf "client: failed to convert json to jsonl: %w" [] err))
        | .ok reader => (c.upload W ctx path (body.get "file") body reader).ret) ∧
    (¬ (endsInJSONFold (body.get "file") = true ∧
        (body.get "purpose" = "fine-tune" ∨ body.get "purpose" = "fine-tune-results")) →
      (c.RequestMultipart W ctx path body).ret =
        (c.upload W ctx path (body.get "file") body file.reader).ret) ∧
    (∀ (reader : Reader) (req : Request), reader.err = none →
      c.buildRequest W "POST" path (.multipartBuffer (Form.mk
        (Part.file "file" (W.Base (body.get "file")) reader.data :: fieldParts body) true)) =
        .ok req →
      (c.upload W ctx path (body.get "file") body reader).ret =
        (c.doRequest W ctx
          { req with
            Header := req.Header.Set "Content-Type"
              ("multipart/form-data; boundary=" ++ W.boundary) }).ret) := by
  have hret := RequestMultipart_ret_of_open c W ctx path body file hopen
  rw [hasSuffix_json_iff W.lower hlower] at hret
  have hcodes : FineTune.Code = "fine-tune" ∧ FineTuneResults.Code = "fine-tune-results" :=
    ⟨rfl, rfl⟩
  rw [hcodes.1, hcodes.2] at hret
  refine ⟨fun hc => ?_, fun hc => ?_, fun reader req hreader hreq => ?_⟩
  · rw [hret, if_pos hc]
  · rw [hret, if_neg hc]
  · rw [upload_of_stream c W ctx path _ body reader req hreader hreq]

/-- The spec's examples, on a server that answers with the file part it
received: `data.JSON` for `fine-tune` is converted; `data.json` for
`assistants`, `data.csv` for `fine-tune` and `data.json` without a purpose are
sent as they are. -/
theorem RequestMultipart_conversion_witness :
    (echoClient.RequestMultipart sampleWorld sampleContext "/files"
      (sampleFields "data.JSON" "fine-tune")).ret = (some (asciiBytes "1\n2\n"), none) ∧
    (echoClient.RequestMultipart sampleWorld sampleContext "/files"
      (sampleFields "data.json" "assistants")).ret = (some (asciiBytes "[1,2]"), none) ∧
    (echoClient.RequestMultipart sampleWorld sampleContext "/files"
      (sampleFields "data.csv" "fine-tune")).ret = (some (asciiBytes "[1,2]"), none) ∧
    (echoClient.RequestMultipart sampleWorld sampleContext "/files"
      (sampleFileOnly "data.json")).ret = (some (asciiBytes "[1,2]"), none) :=
  ⟨((RequestMultipart_conversion echoClient sampleWorld sampleContext "/files"
      (sampleFields "data.JSON" "fine-tune") (sampleFile none) lowersJSON_toLower rfl).1
      (by decide)).trans (by decide),
   ((RequestMultipart_conversion echoClient sampleWorld sampleContext "/files"
      (sampleFields "data.json" "assistants") (sampleFile none) lowersJSON_toLower rfl).2.1
      (by decide)).trans (by decide),
   ((RequestMultipart_conversion echoClient sampleWorld sampleContext "/files"
      (sampleFields "data.csv" "fine-tune") (sampleFile none) lowersJSON_toLower rfl).2.1
      (by decide)).trans (by decide),
   ((RequestMultipart_conversion echoClient sampleWorld sampleContext "/files"
      (sampleFileOnly "data.json") (sampleFile none) lowersJSON_toLower rfl).2.1
      (by decide)).trans (by decide)⟩

/-- The request of `Request("GET", "/files")` and the request of an upload
carry `Bearer sk-test`. -/
theorem buildRequest_authorization_witness :
    sampleBuilt.Header.Get "Authorization" = "Bearer sk-test" ∧
    echoClient.Request sampleWorld sampleContext "GET" "/files" =
      (echoClient.doRequest sampleWorld sampleContext sampleBuilt).ret ∧
    (sampleUploadBuilt.Header.Set "Content-Type"
      "multipart/form-data; boundary=0123456789abcdef").Get "Authorization" =
      "Bearer sk-test" ∧
    (echoClient.RequestMultipart sampleWorld sampleContext "/files"
      (sampleFields "data.json" "assistants")).ret =
      (echoClient.doRequest sampleWorld sampleContext
        { sampleUploadBuilt with
          Header := sampleUploadBuilt.Header.Set "Content-Type"
            ("multipart/form-data; boundary=" ++ sampleWorld.boundary) }).ret :=
  ⟨(buildRequest_authorization echoClient sampleWorld sampleContext "GET" "/files" .nil
      sampleBuilt (by decide)).1,
   (buildRequest_authorization echoClient sampleWorld sampleContext "GET" "/files" .nil
      sampleBuilt (by decide)).2.2.2.1 rfl,
   (buildRequest_authorization echoClient sampleWorld sampleContext "POST" "/files"
      sampleUploadBuilt.Body sampleUploadBuilt (by decide)).2.1 _,
   (buildRequest_authorization echoClient sampleWorld sampleContext "POST" "/files"
      sampleUploadBuilt.Body sampleUploadBuilt (by decide)).2.2.2.2.2
      (sampleFields "data.json" "assistants") (sampleFile none) (sampleFile none).reader
      rfl rfl (by decide) rfl (by decide)⟩

end Chatbot
